import Mathlib

/-!
A shallow embedding of `TableModel` (src/tableview/tablemodel.cpp), a Qt/QML
adapter that exposes a relational database table as a role-keyed, editable
item model with checkbox-style row selection, soft delete and recovery.

Modelling conventions:
* `QVariant` is the inductive `Variant`; an invalid/null variant is
  `Variant.null`.
* Machine integers are `Nat`/`Int`; Qt role constants keep their numeric
  values (`Qt::DisplayRole = 0`, `Qt::EditRole = 2`, `Qt::CheckStateRole = 10`,
  `Qt::UserRole = 256`).
* The Qt base-class behaviour (`QSqlRelationalTableModel` / `QSqlTableModel` /
  `QSqlQueryModel` / `QItemSelectionModel`) is modelled after its documented
  semantics: the base `setData` writes only for `Qt::EditRole` at a
  range-checked index and the database may still reject the write
  (`storeEditOk`); the base `data` answers `DisplayRole`/`EditRole` at a
  range-checked index; `select()` re-runs the query (`storeSelectOk`,
  repopulating the loaded rows from `dbRows`); `insertRecord` succeeds for an
  insertion position of at most `rowCount()` when the database accepts the
  insert (`storeInsertOk`).
* A `QModelIndex` is a `(row, column)` pair; an index obtained through the
  public `index(row, column)` factory is valid exactly when it is in range,
  which is what the `index.isValid()` guards of the source check.
* The selection model is modelled at row granularity, matching the
  selection-set data model of the adapter (a set of selected row indices);
  `selectedIndexes().count()` is its cardinality.  A detached selection model
  (null pointer) is `Option.none`; the source would dereference the null
  pointer inside `setData`/`data`/`removeSelected` (undefined behaviour), the
  embedding returns the failure value on that branch and no theorem relies
  on it.
* Signal emission is observable through the `emitted` trace of `error`
  messages; the value-change notifications (`dataChanged`,
  `selectedRowsChanged`, `tableChanged`) carry no payload relevant to the
  verified properties and are not recorded.
-/

/-- Modelled `QVariant`: the value type moved between the UI layer and the
store. -/
inductive Variant where
  | null : Variant
  | bool : Bool → Variant
  | int : Int → Variant
  | str : String → Variant
deriving DecidableEq

/-- Conversion `QVariant::toBool`: null is false, numbers are compared with
zero, the strings "", "0" and "false" are false. -/
def Variant.toBool : Variant → Bool
  | .null => false
  | .bool b => b
  | .int n => n != 0
  | .str s => !(s == "" || s == "0" || s == "false")

namespace TableModel

/-- Qt::DisplayRole. -/
def DisplayRole : ℕ := 0

/-- Qt::EditRole. -/
def EditRole : ℕ := 2

/-- Qt::CheckStateRole. -/
def CheckStateRole : ℕ := 10

/-- Qt::UserRole. -/
def UserRole : ℕ := 256

/-- One step of the `roleNames` loop (tablemodel.cpp:107-110): field `i` of
the record is published under the role key `base + i`, where the top-level
call passes `base = Qt::UserRole + 1`. -/
def columnRoles (base : ℕ) : List String → List (ℕ × String)
  | [] => []
  | f :: fs => (base, f) :: columnRoles (base + 1) fs

/-- TableModel::roleNames (tablemodel.cpp:97-115): one reserved entry
`Qt::CheckStateRole ↦ "checkState"` plus one entry `Qt::UserRole + 1 + i ↦`
field name `i` per record field, rebuilt from the current record on every
call (the result is also cached into the private `roles` hash, modelled by
the `roles` field of the state). -/
def roleNames (cols : List String) : List (ℕ × String) :=
  (CheckStateRole, "checkState") :: columnRoles (UserRole + 1) cols

/-- Lookup `QHash::key(value)`: some key currently mapped to `value`, or the
default-constructed key `0` when there is none.  (A `QHash` enumerates in an
unspecified order; the embedding scans in insertion order, which agrees with
any order whenever field names are distinct.) -/
def rolesKey (roles : List (ℕ × String)) (value : String) : ℕ :=
  match roles.find? (fun p => p.2 == value) with
  | some p => p.1
  | none => 0

/-- State of a `TableModel` instance together with its collaborators: the
private fields of `TableModelPrivate`, the loaded result set and schema of
the inherited sql model, the backing database, and the outcome flags of the
fallible store operations. -/
structure ModelState where
  /-- Private field `databaseName`. -/
  databaseName : String
  /-- Private field `tableName` (equal to the bound sql model table). -/
  tableName : String
  /-- Private field `errorString`: the last recorded internal message. -/
  errorString : String
  /-- Private field `selectionModel`; `none` models a null pointer. -/
  selectionModel : Option (Finset ℕ)
  /-- Private field `roles`: the cached role hash, written by `roleNames`. -/
  roles : List (ℕ × String)
  /-- Loaded result set of the sql model, row-major cell values. -/
  rows : List (List Variant)
  /-- Field names of the current record, in declaration order. -/
  cols : List String
  /-- Content the backing table would deliver on a (re)load. -/
  dbRows : List (List Variant)
  /-- Per-column default values the store applies to non-generated fields. -/
  defaults : List Variant
  /-- Catalog `database().tables()`. -/
  catalog : List String
  /-- Whether the database accepts a cell edit (`setData` on the base). -/
  storeEditOk : Bool
  /-- Whether the database accepts an `insertRecord`. -/
  storeInsertOk : Bool
  /-- Whether the base `select()` query succeeds. -/
  storeSelectOk : Bool
  /-- Diagnostic `lastError().text()` of the store. -/
  storeLastError : String
  /-- Trace of the `error(msg)` signal emissions. -/
  emitted : List String
deriving DecidableEq

/-- Write one cell of the loaded result set. -/
def writeCell (rows : List (List Variant)) (row col : ℕ) (v : Variant) :
    List (List Variant) :=
  rows.set row ((rows.getD row []).set col v)

/-- Base-class write `QSqlRelationalTableModel::setData` (ultimately
`QSqlTableModel::setData`): a role other than `Qt::EditRole` is rejected; an
edit needs an in-range index and a database that accepts the update. -/
def baseSetData (s : ModelState) (row : ℕ) (col : ℤ) (v : Variant)
    (role : ℕ) : Bool × ModelState :=
  if role ≠ EditRole then (false, s)
  else if 0 ≤ col ∧ col < (s.cols.length : ℤ) ∧ row < s.rows.length then
    if s.storeEditOk then (true, { s with rows := writeCell s.rows row col.toNat v })
    else (false, s)
  else (false, s)

/-- Base-class read `QSqlRelationalTableModel::data`: answers
`Qt::DisplayRole` and `Qt::EditRole` at an in-range index, anything else is
the invalid variant. -/
def baseData (s : ModelState) (row : ℕ) (col : ℤ) (role : ℕ) : Variant :=
  if (role = DisplayRole ∨ role = EditRole) ∧
      0 ≤ col ∧ col < (s.cols.length : ℤ) ∧ row < s.rows.length then
    (s.rows.getD row []).getD col.toNat Variant.null
  else Variant.null

/-- TableModel::setData (tablemodel.cpp:117-142).  An invalid index is
rejected up front.  Below `Qt::UserRole`, the check-state role toggles the
selection of the row (and always succeeds), any other role is delegated to
the base class unchanged.  From `Qt::UserRole + 1` on, the role is mapped to
the column `role - Qt::UserRole - 1` and written through the base class with
`Qt::EditRole`. -/
def setData (s : ModelState) (row col : ℕ) (v : Variant) (role : ℕ) :
    Bool × ModelState :=
  if ¬ (row < s.rows.length ∧ col < s.cols.length) then (false, s)
  else if role < UserRole then
    if role = CheckStateRole then
      match s.selectionModel with
      | some selSet =>
          (true, { s with
              selectionModel :=
                some (if v.toBool then insert row selSet else selSet.erase row) })
      | none => (false, s)
    else baseSetData s row (Int.ofNat col) v role
  else baseSetData s row ((role : ℤ) - (UserRole : ℤ) - 1) v EditRole

/-- TableModel::data (tablemodel.cpp:144-162).  An invalid index yields the
invalid variant.  Below `Qt::UserRole`, the check-state role reports the
selection membership of the row, any other role is delegated to the base
class.  From `Qt::UserRole + 1` on, the role is mapped to the column
`role - Qt::UserRole - 1` and read through the base class with
`Qt::DisplayRole`. -/
def data (s : ModelState) (row col : ℕ) (role : ℕ) : Variant :=
  if ¬ (row < s.rows.length ∧ col < s.cols.length) then Variant.null
  else if role < UserRole then
    if role = CheckStateRole then
      match s.selectionModel with
      | some selSet => Variant.bool (row ∈ selSet)
      | none => Variant.null
    else baseData s row (Int.ofNat col) role
  else baseData s row ((role : ℤ) - (UserRole : ℤ) - 1) DisplayRole

/-- TableModel::selectedRows (tablemodel.cpp:207-214): 0 without a selection
model, otherwise the number of selected indexes. -/
def selectedRows (s : ModelState) : ℕ :=
  match s.selectionModel with
  | none => 0
  | some selSet => selSet.card

/-- TableModel::errorString (tablemodel.cpp:216-220): the recorded internal
message when there is one, otherwise the store diagnostic. -/
def errorString (s : ModelState) : String :=
  if s.errorString = "" then s.storeLastError else s.errorString

/-- TableModel::refresh (tablemodel.cpp:227-250): fail early when the bound
table is missing from the catalog, recording and emitting a message naming
the table and the database; otherwise delegate to the base `select()` and on
failure record and emit the store diagnostic.  Success leaves the recorded
error untouched. -/
def refresh (s : ModelState) : Bool × ModelState :=
  if s.tableName ∉ s.catalog then
    (false, { s with
        errorString := "Can not open table '" ++ s.tableName ++ "' in '"
          ++ s.databaseName ++ "'",
        emitted := s.emitted ++ ["Can not open table '" ++ s.tableName
          ++ "' in '" ++ s.databaseName ++ "'"] })
  else if !s.storeSelectOk then
    (false, { s with
        errorString := "Read record error " ++ s.storeLastError,
        emitted := s.emitted ++ ["Read record error " ++ s.storeLastError] })
  else (true, { s with rows := s.dbRows })

/-- TableModel::select (tablemodel.cpp:222-225): delegates to `refresh`. -/
def select (s : ModelState) : Bool × ModelState :=
  refresh s

/-- One field of a `QSqlRecord`: a name, a value, and the generated flag
("use explicit value" when set, "use default" when cleared). -/
structure RecField where
  name : String
  value : Variant
  generated : Bool
deriving DecidableEq

/-- Record `this->record()`: one field per column, invalid value, generated
flag initially set. -/
def emptyRecord (cols : List String) : List RecField :=
  cols.map (fun n => { name := n, value := Variant.null, generated := true })

/-- Loop of tablemodel.cpp:261-262: clear the generated flag of every
field. -/
def setAllGeneratedFalse (rcd : List RecField) : List RecField :=
  rcd.map (fun f => { f with generated := false })

/-- Update `QSqlRecord::setValue(name, v)`: set the value of the first field
called `name`; a record without such a field is unchanged. -/
def recSetValue : List RecField → String → Variant → List RecField
  | [], _, _ => []
  | f :: fs, name, v =>
      if f.name = name then { f with value := v } :: fs
      else f :: recSetValue fs name v

/-- Update `QSqlRecord::setGenerated(name, g)`: set the generated flag of the
first field called `name`; a record without such a field is unchanged. -/
def recSetGenerated : List RecField → String → Bool → List RecField
  | [], _, _ => []
  | f :: fs, name, g =>
      if f.name = name then { f with generated := g } :: fs
      else f :: recSetGenerated fs name g

/-- Modelled from the spec: the row-state enumerator `Pending`
(`TableModel::PendingStatus`).  The enumeration is declared in the class
header, which is not among the available sources; only the identity of the
value matters to the verified properties, its concrete numeral does not. -/
def PendingStatus : Variant := Variant.int 0

/-- Record built by TableModel::insert (tablemodel.cpp:260-265): every field
switched to "use default", then the `state` field set to `PendingStatus` and
switched back to "use explicit value". -/
def insertRecordBuilt (s : ModelState) : List RecField :=
  recSetGenerated
    (recSetValue (setAllGeneratedFalse (emptyRecord s.cols)) "state" PendingStatus)
    "state" true

/-- Row the store materialises for an accepted `insertRecord`: a generated
field keeps its explicit value, a non-generated field receives the store
default of its column. -/
def applyDefaults (rcd : List RecField) (defaults : List Variant) :
    List Variant :=
  List.zipWith (fun f d => if f.generated then f.value else d) rcd defaults

/-- Insert a row at position `i` of the result set. -/
def insertAtList (rows : List (List Variant)) (i : ℕ) (r : List Variant) :
    List (List Variant) :=
  rows.take i ++ r :: rows.drop i

/-- TableModel::insert (tablemodel.cpp:257-279): build the blank record, hand
it to `insertRecord(row, rec)` (which needs `row ≤ rowCount()` and a database
that accepts the insert), and return the row on success.  On failure, append
a message carrying the store diagnostic, the database name and the table
name to the recorded error, emit it, and return `-1`. -/
def insert (s : ModelState) (row : ℕ) : Int × ModelState :=
  if s.storeInsertOk ∧ row ≤ s.rows.length then
    (Int.ofNat row,
      { s with
          rows :=
            insertAtList s.rows row
              (applyDefaults (insertRecordBuilt s) s.defaults) })
  else
    (-1, { s with
        errorString :=
          ((s.errorString ++ "") ++ ("Insert record failed" ++ s.storeLastError))
            ++ (s.databaseName ++ s.tableName),
        emitted :=
          s.emitted
            ++ [((s.errorString ++ "")
                  ++ ("Insert record failed" ++ s.storeLastError))
                ++ (s.databaseName ++ s.tableName)] })

/-- TableModel::add (tablemodel.cpp:252-255): insert at `rowCount()`. -/
def add (s : ModelState) : Int × ModelState :=
  insert s s.rows.length

/-- Row removal `QSqlTableModel::removeRow`: succeeds exactly on an in-range
row, removing it and shifting the following rows up by one. -/
def removeRowAt (rows : List (List Variant)) (i : ℕ) :
    Option (List (List Variant)) :=
  if i < rows.length then some (rows.eraseIdx i) else none

/-- Loop of TableModel::removeSelected (tablemodel.cpp:303-313): the selected
indices were sorted ascending and are consumed from the tail of the list,
i.e. in descending order (the embedding walks the reversed ascending list
from its head).  Each successfully removed row is deselected and counted. -/
def removeSelectedGo :
    List ℕ → List (List Variant) → Finset ℕ → ℕ → ℕ × List (List Variant) × Finset ℕ
  | [], rows, sel, total => (total, rows, sel)
  | i :: rest, rows, sel, total =>
      match removeRowAt rows i with
      | some rows2 => removeSelectedGo rest rows2 (sel.erase i) (total + 1)
      | none => removeSelectedGo rest rows sel total

/-- TableModel::removeSelected (tablemodel.cpp:292-316): sort the selected
indices ascending, consume from the tail, remove each row, deselect on
success, and return the number of removed rows.  (With a null selection model
the source would dereference a null pointer; no theorem relies on that
branch.) -/
def removeSelected (s : ModelState) : ℕ × ModelState :=
  match s.selectionModel with
  | none => (0, s)
  | some sel =>
      let r := removeSelectedGo ((sel.sort (· ≤ ·)).reverse) s.rows sel 0
      (r.1, { s with rows := r.2.1, selectionModel := some r.2.2 })

/-- TableModel::recoverRow (tablemodel.cpp:318-324): reverse-map the cached
role hash at the field name `deleted_at` (`QHash::key`, yielding the
default key 0 when absent) and write a null variant through `setData` at
`(row, 0)`. -/
def recoverRow (s : ModelState) (row : ℕ) : Bool × ModelState :=
  setData s row 0 Variant.null (rolesKey s.roles "deleted_at")

end TableModel

/-- Specification-side description of a bulk removal: keep exactly the
entries whose 0-based position (counted from `n`) is outside `s`, preserving
their order.  `omitIdxs 0 rows sel` is the intended result of removing the
selected positions of `rows` without any index-shift-induced double removal
or skip. -/
def omitIdxs {α : Type} : ℕ → List α → Finset ℕ → List α
  | _, [], _ => []
  | n, a :: as, s =>
      if n ∈ s then omitIdxs (n + 1) as s else a :: omitIdxs (n + 1) as s

/-- Concrete instance with ten loaded rows, three columns and the rows
2, 5, 7 selected, used to exercise the theorems on explicit inputs. -/
def sampleState : TableModel.ModelState :=
  { databaseName := "books.db"
    tableName := "books"
    errorString := ""
    selectionModel := some {2, 5, 7}
    roles := TableModel.roleNames ["title", "state", "deleted_at"]
    rows := (List.range 10).map (fun i => [Variant.int i, Variant.int 1, Variant.null])
    cols := ["title", "state", "deleted_at"]
    dbRows := [[Variant.str "a", Variant.int 1, Variant.null]]
    defaults := [Variant.null, Variant.int 0, Variant.null]
    catalog := ["books"]
    storeEditOk := true
    storeInsertOk := true
    storeSelectOk := true
    storeLastError := ""
    emitted := [] }

/-- The sample instance bound to a table name absent from the catalog. -/
def sampleMissing : TableModel.ModelState :=
  { sampleState with tableName := "gone" }

/-- The sample instance with a rejecting database and a prior recorded
error. -/
def sampleInsertFail : TableModel.ModelState :=
  { sampleState with
      storeInsertOk := false
      errorString := "prior. " }

/-- C7: for every out-of-range (hence invalid) model index, `data` answers
the invalid/null variant without failing, and `setData` answers `false`
and leaves the whole state — selection set and store included — unchanged. -/
theorem invalid_index_no_mutation (s : TableModel.ModelState)
    (row col role : ℕ) (v : Variant)
    (h : ¬ (row < s.rows.length ∧ col < s.cols.length)) :
    TableModel.data s row col role = Variant.null ∧
    TableModel.setData s row col v role = (false, s) := by
  constructor
  · simp only [TableModel.data, if_pos h]
  · simp only [TableModel.setData, if_pos h]

/-- Witness for C7 at row 99 of the ten-row sample. -/
theorem invalid_index_no_mutation_witness :
    TableModel.data sampleState 99 0 TableModel.CheckStateRole = Variant.null ∧
    TableModel.setData sampleState 99 0 (Variant.bool true)
      TableModel.CheckStateRole = (false, sampleState) :=
  invalid_index_no_mutation sampleState 99 0 TableModel.CheckStateRole
    (Variant.bool true) (by decide)

/-- C8: `errorString` answers the recorded internal message when one is
present, and falls back to the store's last-error text when none has been
recorded (the recorded message is the empty string). -/
theorem errorString_fallback (s : TableModel.ModelState) :
    (s.errorString ≠ "" → TableModel.errorString s = s.errorString) ∧
    (s.errorString = "" → TableModel.errorString s = s.storeLastError) := by
  constructor
  · intro h; simp only [TableModel.errorString, if_neg h]
  · intro h; simp only [TableModel.errorString, if_pos h]

/-- Witness for C8 on a recorded message and on the empty-record fallback. -/
theorem errorString_fallback_witness :
    TableModel.errorString { sampleState with errorString := "boom" } = "boom" ∧
    TableModel.errorString { sampleState with
        errorString := "", storeLastError := "db gone" } = "db gone" :=
  ⟨(errorString_fallback _).1 (by decide), (errorString_fallback _).2 rfl⟩

/-- C9: `selectedRows` is total at the public interface: it answers 0 when no
selection model is attached, and the cardinality of the selection set when
one is. -/
theorem selectedRows_total (s : TableModel.ModelState) :
    (s.selectionModel = none → TableModel.selectedRows s = 0) ∧
    (∀ selSet, s.selectionModel = some selSet →
        TableModel.selectedRows s = selSet.card) := by
  constructor
  · intro h; simp only [TableModel.selectedRows, h]
  · intro selSet h; simp only [TableModel.selectedRows, h]

/-- Witness for C9 on a detached and on an attached selection model. -/
theorem selectedRows_total_witness :
    TableModel.selectedRows { sampleState with selectionModel := none } = 0 ∧
    TableModel.selectedRows sampleState = Finset.card {2, 5, 7} :=
  ⟨(selectedRows_total _).1 rfl, (selectedRows_total _).2 _ rfl⟩

/-- Reduction of the check-state branch of `setData` on a valid index with an
attached selection model. -/
theorem setData_checked (s : TableModel.ModelState) (row col : ℕ)
    (sel0 : Finset ℕ) (hsel : s.selectionModel = some sel0)
    (hrow : row < s.rows.length) (hcol : col < s.cols.length) (v : Variant) :
    TableModel.setData s row col v TableModel.CheckStateRole =
      (true, { s with
          selectionModel :=
            some (if v.toBool then insert row sel0 else sel0.erase row) }) := by
  unfold TableModel.setData
  rw [if_neg (not_not_intro ⟨hrow, hcol⟩),
    if_pos (by decide : TableModel.CheckStateRole < TableModel.UserRole),
    if_pos rfl, hsel]

/-- Reduction of the check-state branch of `data` on a valid index with an
attached selection model. -/
theorem data_checked (s : TableModel.ModelState) (row col : ℕ)
    (sel0 : Finset ℕ) (hsel : s.selectionModel = some sel0)
    (hrow : row < s.rows.length) (hcol : col < s.cols.length) :
    TableModel.data s row col TableModel.CheckStateRole =
      Variant.bool (row ∈ sel0) := by
  unfold TableModel.data
  rw [if_neg (not_not_intro ⟨hrow, hcol⟩),
    if_pos (by decide : TableModel.CheckStateRole < TableModel.UserRole),
    if_pos rfl, hsel]

/-- C3: on a valid index with an attached selection model, writing the
check-state role always succeeds; writing `true` then reading the
check-state role answers `true`, writing `false` then reading answers
`false`; and the size of the selection set equals `selectedRows`. -/
theorem checked_role_round_trip (s : TableModel.ModelState) (row col : ℕ)
    (sel0 : Finset ℕ) (hsel : s.selectionModel = some sel0)
    (hrow : row < s.rows.length) (hcol : col < s.cols.length) :
    (∀ v : Variant,
      (TableModel.setData s row col v TableModel.CheckStateRole).1 = true) ∧
    TableModel.data (TableModel.setData s row col (Variant.bool true)
        TableModel.CheckStateRole).2 row col TableModel.CheckStateRole
      = Variant.bool true ∧
    TableModel.data (TableModel.setData s row col (Variant.bool false)
        TableModel.CheckStateRole).2 row col TableModel.CheckStateRole
      = Variant.bool false ∧
    TableModel.selectedRows s = sel0.card := by
  refine ⟨?_, ?_, ?_, ?_⟩
  · intro v
    rw [setData_checked s row col sel0 hsel hrow hcol v]
  · rw [setData_checked s row col sel0 hsel hrow hcol (Variant.bool true)]
    show TableModel.data { s with selectionModel := some (insert row sel0) }
      row col TableModel.CheckStateRole = Variant.bool true
    rw [data_checked { s with selectionModel := some (insert row sel0) }
      row col (insert row sel0) rfl hrow hcol]
    simp
  · rw [setData_checked s row col sel0 hsel hrow hcol (Variant.bool false)]
    show TableModel.data { s with selectionModel := some (sel0.erase row) }
      row col TableModel.CheckStateRole = Variant.bool false
    rw [data_checked { s with selectionModel := some (sel0.erase row) }
      row col (sel0.erase row) rfl hrow hcol]
    simp [Finset.not_mem_erase]
  · simp only [TableModel.selectedRows, hsel]

/-- Witness for C3 at row 4, column 0 of the sample instance. -/
theorem checked_role_round_trip_witness :
    (TableModel.setData sampleState 4 0 (Variant.bool true)
        TableModel.CheckStateRole).1 = true ∧
    TableModel.data (TableModel.setData sampleState 4 0 (Variant.bool true)
        TableModel.CheckStateRole).2 4 0 TableModel.CheckStateRole
      = Variant.bool true ∧
    TableModel.data (TableModel.setData sampleState 4 0 (Variant.bool false)
        TableModel.CheckStateRole).2 4 0 TableModel.CheckStateRole
      = Variant.bool false ∧
    TableModel.selectedRows sampleState = Finset.card {2, 5, 7} := by
  have h := checked_role_round_trip sampleState 4 0 {2, 5, 7} rfl
    (by decide) (by decide)
  exact ⟨h.1 (Variant.bool true), h.2.1, h.2.2.1, h.2.2.2⟩

/-- A string with a positive length is not empty. -/
theorem ne_empty_of_length_pos {a : String} (h : 0 < a.length) : a ≠ "" := by
  intro e
  rw [e] at h
  exact (by decide : ¬ (0 < ("" : String).length)) h

/-- An append whose left part has positive length is not empty. -/
theorem lit_append_ne_empty (a b : String) (ha : 0 < a.length) :
    a ++ b ≠ "" := by
  apply ne_empty_of_length_pos
  rw [String.length_append]
  omega

/-- An append whose right part has positive length is not empty. -/
theorem append_lit_ne_empty (a b : String) (hb : 0 < b.length) :
    a ++ b ≠ "" := by
  apply ne_empty_of_length_pos
  rw [String.length_append]
  omega

/-- C5: `select` first checks the catalog for the bound table and on a miss
records and emits a human-readable message naming the table and the
database; otherwise it delegates to the store reload and on a reload failure
records and emits the store diagnostic.  Both failure paths leave the
observable error string equal to the recorded message, and success touches
neither the recorded error nor the event trace, so the last error persists
until overwritten. -/
theorem select_error_policy (s : TableModel.ModelState) :
    (s.tableName ∉ s.catalog →
        TableModel.select s =
          (false, { s with
              errorString := "Can not open table '" ++ s.tableName ++ "' in '"
                ++ s.databaseName ++ "'",
              emitted := s.emitted ++ ["Can not open table '" ++ s.tableName
                ++ "' in '" ++ s.databaseName ++ "'"] }) ∧
        TableModel.errorString (TableModel.select s).2 =
          "Can not open table '" ++ s.tableName ++ "' in '"
            ++ s.databaseName ++ "'") ∧
    (s.tableName ∈ s.catalog → s.storeSelectOk = false →
        TableModel.select s =
          (false, { s with
              errorString := "Read record error " ++ s.storeLastError,
              emitted := s.emitted
                ++ ["Read record error " ++ s.storeLastError] }) ∧
        TableModel.errorString (TableModel.select s).2 =
          "Read record error " ++ s.storeLastError) ∧
    (s.tableName ∈ s.catalog → s.storeSelectOk = true →
        TableModel.select s = (true, { s with rows := s.dbRows })) := by
  refine ⟨?_, ?_, ?_⟩
  · intro h
    have heq : TableModel.select s =
        (false, { s with
            errorString := "Can not open table '" ++ s.tableName ++ "' in '"
              ++ s.databaseName ++ "'",
            emitted := s.emitted ++ ["Can not open table '" ++ s.tableName
              ++ "' in '" ++ s.databaseName ++ "'"] }) := by
      unfold TableModel.select TableModel.refresh
      rw [if_pos h]
    refine ⟨heq, ?_⟩
    rw [heq]
    show TableModel.errorString { s with
        errorString := "Can not open table '" ++ s.tableName ++ "' in '"
          ++ s.databaseName ++ "'",
        emitted := s.emitted ++ ["Can not open table '" ++ s.tableName
          ++ "' in '" ++ s.databaseName ++ "'"] } = _
    unfold TableModel.errorString
    rw [if_neg (append_lit_ne_empty _ "'" (by decide))]
  · intro h hok
    have heq : TableModel.select s =
        (false, { s with
            errorString := "Read record error " ++ s.storeLastError,
            emitted := s.emitted
              ++ ["Read record error " ++ s.storeLastError] }) := by
      unfold TableModel.select TableModel.refresh
      rw [if_neg (not_not_intro h), hok]
      rfl
    refine ⟨heq, ?_⟩
    rw [heq]
    show TableModel.errorString { s with
        errorString := "Read record error " ++ s.storeLastError,
        emitted := s.emitted
          ++ ["Read record error " ++ s.storeLastError] } = _
    unfold TableModel.errorString
    rw [if_neg (lit_append_ne_empty "Read record error " _ (by decide))]
  · intro h hok
    unfold TableModel.select TableModel.refresh
    rw [if_neg (not_not_intro h), hok]
    rfl

/-- Witness for C5: a missing table records and emits the message, a healthy
reload succeeds without touching the recorded error. -/
theorem select_error_policy_witness :
    TableModel.select sampleMissing =
      (false, { sampleMissing with
          errorString := "Can not open table 'gone' in 'books.db'",
          emitted := ["Can not open table 'gone' in 'books.db'"] }) ∧
    TableModel.select sampleState =
      (true, { sampleState with rows := sampleState.dbRows }) :=
  ⟨((select_error_policy sampleMissing).1 (by decide)).1,
   (select_error_policy sampleState).2.2 (by decide) rfl⟩

/-- Every field of the built insert record other than `state` keeps a null
value and a cleared generated flag. -/
theorem insert_blank_fields :
    ∀ (l : List TableModel.RecField),
      (∀ f ∈ l, f.value = Variant.null ∧ f.generated = false) →
      ∀ f ∈ TableModel.recSetGenerated
          (TableModel.recSetValue l "state" TableModel.PendingStatus)
          "state" true,
        f.name ≠ "state" → f.generated = false ∧ f.value = Variant.null := by
  intro l
  induction l with
  | nil => intro _ f hf _; simp [TableModel.recSetValue,
      TableModel.recSetGenerated] at hf
  | cons g tl ih =>
    intro hall f hf hne
    by_cases hg : g.name = "state"
    · rw [TableModel.recSetValue, if_pos hg] at hf
      rw [TableModel.recSetGenerated, if_pos hg] at hf
      rcases List.mem_cons.mp hf with heq | htl
      · exact absurd (heq ▸ hg) hne
      · exact ⟨(hall f (List.mem_cons_of_mem g htl)).2,
          (hall f (List.mem_cons_of_mem g htl)).1⟩
    · rw [TableModel.recSetValue, if_neg hg] at hf
      rw [TableModel.recSetGenerated, if_neg hg] at hf
      rcases List.mem_cons.mp hf with heq | htl
      · subst heq
        exact ⟨(hall f (List.mem_cons_self f tl)).2,
          (hall f (List.mem_cons_self f tl)).1⟩
      · exact ih (fun x hx => hall x (List.mem_cons_of_mem g hx)) f htl hne

/-- A record containing a field named `state` yields, after the insert-record
preparation, a field named `state` carrying the pending status with the
generated flag set. -/
theorem insert_state_field :
    ∀ (l : List TableModel.RecField),
      "state" ∈ l.map TableModel.RecField.name →
      ∃ f ∈ TableModel.recSetGenerated
          (TableModel.recSetValue l "state" TableModel.PendingStatus)
          "state" true,
        f.name = "state" ∧ f.value = TableModel.PendingStatus ∧
          f.generated = true := by
  intro l
  induction l with
  | nil => intro h; simp at h
  | cons g tl ih =>
    intro hmem
    by_cases hg : g.name = "state"
    · rw [TableModel.recSetValue, if_pos hg]
      rw [TableModel.recSetGenerated, if_pos hg]
      exact ⟨_, List.mem_cons_self _ _, hg, rfl, rfl⟩
    · rw [TableModel.recSetValue, if_neg hg]
      rw [TableModel.recSetGenerated, if_neg hg]
      have : "state" ∈ tl.map TableModel.RecField.name := by
        rcases List.mem_map.mp hmem with ⟨x, hx, hxe⟩
        rcases List.mem_cons.mp hx with heq | htl
        · exact absurd (heq ▸ hxe) hg
        · exact List.mem_map.mpr ⟨x, htl, hxe⟩
      rcases ih this with ⟨f, hf, hprop⟩
      exact ⟨f, List.mem_cons_of_mem g hf, hprop⟩

/-- Before the `state` write, every field of the record under construction
is null and non-generated. -/
theorem blank_base (cols : List String) :
    ∀ f ∈ TableModel.setAllGeneratedFalse (TableModel.emptyRecord cols),
      f.value = Variant.null ∧ f.generated = false := by
  intro f hf
  simp only [TableModel.setAllGeneratedFalse, TableModel.emptyRecord,
    List.map_map, List.mem_map, Function.comp] at hf
  rcases hf with ⟨n, _, rfl⟩
  exact ⟨rfl, rfl⟩

/-- The record under construction carries exactly the column names. -/
theorem names_base (cols : List String) :
    (TableModel.setAllGeneratedFalse (TableModel.emptyRecord cols)).map
      TableModel.RecField.name = cols := by
  simp only [TableModel.setAllGeneratedFalse, TableModel.emptyRecord,
    List.map_map]
  exact List.map_id cols

/-- C6: the record built by `insert` marks every field "use default" (null
value, generated flag cleared) except `state`, which carries the pending
status with the generated flag set whenever the schema has a `state` column;
an accepted insert returns the requested row index, and a rejected insert
returns `-1` and emits an error message carrying the store diagnostic, the
database name and the bound table name. -/
theorem insert_defaults_spec (s : TableModel.ModelState) (row : ℕ) :
    (∀ f ∈ TableModel.insertRecordBuilt s, f.name ≠ "state" →
        f.generated = false ∧ f.value = Variant.null) ∧
    ("state" ∈ s.cols →
        ∃ f ∈ TableModel.insertRecordBuilt s,
          f.name = "state" ∧ f.value = TableModel.PendingStatus ∧
            f.generated = true) ∧
    (s.storeInsertOk = true → row ≤ s.rows.length →
        (TableModel.insert s row).1 = Int.ofNat row) ∧
    (s.storeInsertOk = false →
        (TableModel.insert s row).1 = -1 ∧
        (TableModel.insert s row).2.emitted = s.emitted ++
          [((s.errorString ++ "") ++ ("Insert record failed"
              ++ s.storeLastError))
            ++ (s.databaseName ++ s.tableName)]) := by
  refine ⟨?_, ?_, ?_, ?_⟩
  · intro f hf hne
    exact insert_blank_fields _ (blank_base s.cols) f hf hne
  · intro hmem
    exact insert_state_field _ ((names_base s.cols).symm ▸ hmem)
  · intro h1 h2
    unfold TableModel.insert
    rw [if_pos ⟨h1, h2⟩]
  · intro h1
    have hne : ¬ (s.storeInsertOk = true ∧ row ≤ s.rows.length) := by
      simp [h1]
    unfold TableModel.insert
    rw [if_neg hne]
    exact ⟨rfl, rfl⟩

/-- Witness for C6 on the three-column sample (whose schema has `state`). -/
theorem insert_defaults_spec_witness :
    (∃ f ∈ TableModel.insertRecordBuilt sampleState,
        f.name = "state" ∧ f.value = TableModel.PendingStatus ∧
          f.generated = true) ∧
    (TableModel.insert sampleState 10).1 = Int.ofNat 10 :=
  ⟨(insert_defaults_spec sampleState 10).2.1 (by decide),
   (insert_defaults_spec sampleState 10).2.2.1 rfl (by decide)⟩

/-- C10: a rejected insert appends its message to the previously recorded
error rather than replacing it: the prior recorded text is a prefix of both
the newly recorded text and of the observable `errorString`, and the
appended tail is never empty. -/
theorem insert_error_accumulates (s : TableModel.ModelState) (row : ℕ)
    (h : s.storeInsertOk = false) :
    ∃ t, t ≠ "" ∧
      (TableModel.insert s row).2.errorString = s.errorString ++ t ∧
      TableModel.errorString (TableModel.insert s row).2 =
        s.errorString ++ t := by
  have hne : ¬ (s.storeInsertOk = true ∧ row ≤ s.rows.length) := by simp [h]
  have hlen : 0 < ("Insert record failed").length := by decide
  refine ⟨("" ++ ("Insert record failed" ++ s.storeLastError))
    ++ (s.databaseName ++ s.tableName), ?_, ?_, ?_⟩
  · apply ne_empty_of_length_pos
    simp only [String.length_append]
    omega
  · unfold TableModel.insert
    rw [if_neg hne]
    show ((s.errorString ++ "") ++ ("Insert record failed"
        ++ s.storeLastError)) ++ (s.databaseName ++ s.tableName) = _
    rw [String.append_assoc (s.errorString ++ "")
      ("Insert record failed" ++ s.storeLastError)
      (s.databaseName ++ s.tableName)]
    rw [String.append_assoc s.errorString ""
      (("Insert record failed" ++ s.storeLastError)
        ++ (s.databaseName ++ s.tableName))]
    rw [String.append_assoc ""
      ("Insert record failed" ++ s.storeLastError)
      (s.databaseName ++ s.tableName)]
  · unfold TableModel.insert
    rw [if_neg hne]
    show TableModel.errorString { s with
        errorString :=
          ((s.errorString ++ "") ++ ("Insert record failed"
            ++ s.storeLastError)) ++ (s.databaseName ++ s.tableName),
        emitted :=
          s.emitted ++ [((s.errorString ++ "") ++ ("Insert record failed"
            ++ s.storeLastError)) ++ (s.databaseName ++ s.tableName)] } = _
    unfold TableModel.errorString
    rw [if_neg (by
      apply ne_empty_of_length_pos
      simp only [String.length_append]
      omega)]
    rw [String.append_assoc (s.errorString ++ "")
      ("Insert record failed" ++ s.storeLastError)
      (s.databaseName ++ s.tableName)]
    rw [String.append_assoc s.errorString ""
      (("Insert record failed" ++ s.storeLastError)
        ++ (s.databaseName ++ s.tableName))]
    rw [String.append_assoc ""
      ("Insert record failed" ++ s.storeLastError)
      (s.databaseName ++ s.tableName)]

/-- Witness for C10: a rejected insert on a state with a prior recorded
error extends the prior text. -/
theorem insert_error_accumulates_witness :
    ∃ t, t ≠ "" ∧
      (TableModel.insert sampleInsertFail 0).2.errorString = "prior. " ++ t ∧
      TableModel.errorString (TableModel.insert sampleInsertFail 0).2 =
        "prior. " ++ t :=
  insert_error_accumulates sampleInsertFail 0 rfl

/-- The column-role list has one entry per column. -/
theorem columnRoles_length :
    ∀ (cols : List String) (base : ℕ),
      (TableModel.columnRoles base cols).length = cols.length := by
  intro cols
  induction cols with
  | nil => intro base; rfl
  | cons f fs ih => intro base; simp [TableModel.columnRoles, ih]

/-- Every key of the column-role list is at least the starting key. -/
theorem columnRoles_key_lb :
    ∀ (cols : List String) (base : ℕ) (p : ℕ × String),
      p ∈ TableModel.columnRoles base cols → base ≤ p.1 := by
  intro cols
  induction cols with
  | nil => intro base p hp; simp [TableModel.columnRoles] at hp
  | cons f fs ih =>
    intro base p hp
    rcases List.mem_cons.mp hp with heq | htl
    · rw [heq]
    · have := ih (base + 1) p htl
      omega

/-- The keys of the column-role list are distinct. -/
theorem columnRoles_keys_nodup :
    ∀ (cols : List String) (base : ℕ),
      ((TableModel.columnRoles base cols).map Prod.fst).Nodup := by
  intro cols
  induction cols with
  | nil => intro base; simp [TableModel.columnRoles]
  | cons f fs ih =>
    intro base
    rw [TableModel.columnRoles, List.map_cons]
    refine List.nodup_cons.mpr ⟨?_, ih (base + 1)⟩
    intro hmem
    rcases List.mem_map.mp hmem with ⟨p, hp, hpe⟩
    have := columnRoles_key_lb fs (base + 1) p hp
    omega

/-- Column `i` appears in the column-role list under key `base + i`. -/
theorem columnRoles_mem :
    ∀ (cols : List String) (base i : ℕ), i < cols.length →
      (base + i, cols.getD i "") ∈ TableModel.columnRoles base cols := by
  intro cols
  induction cols with
  | nil => intro base i h; simp at h
  | cons f fs ih =>
    intro base i h
    cases i with
    | zero => simp [TableModel.columnRoles]
    | succ n =>
      have hn : n < fs.length := by simpa using h
      have := ih (base + 1) n hn
      rw [show base + (n + 1) = (base + 1) + n by omega]
      exact List.mem_cons_of_mem _ this

/-- C2 counterexample: on a two-column schema, the published role keys are
`[10, 257, 258]` (Qt::CheckStateRole and Qt::UserRole + 1 + i), so no entry
uses key 0 and the column keys are not 1..N. -/
theorem roleNames_zero_based_counterexample :
    (TableModel.roleNames ["title", "state"]).map Prod.fst = [10, 257, 258] ∧
    (0, "checkState") ∉ TableModel.roleNames ["title", "state"] := by
  decide

/-- C2 (amended): for an N-column schema, `roleNames` returns exactly N + 1
entries with pairwise-distinct integer keys, rebuilt from the current
schema: the reserved check-state entry under `Qt::CheckStateRole`, and
column `i` (declaration order) under key `Qt::UserRole + 1 + i`, i.e. the
columns occupy offsets 1..N above `Qt::UserRole`. -/
theorem roleNames_keys_spec (cols : List String) :
    (TableModel.roleNames cols).length = cols.length + 1 ∧
    ((TableModel.roleNames cols).map Prod.fst).Nodup ∧
    (TableModel.CheckStateRole, "checkState") ∈ TableModel.roleNames cols ∧
    (∀ i, i < cols.length →
      (TableModel.UserRole + 1 + i, cols.getD i "")
        ∈ TableModel.roleNames cols) := by
  refine ⟨?_, ?_, ?_, ?_⟩
  · simp [TableModel.roleNames, columnRoles_length]
  · rw [TableModel.roleNames, List.map_cons]
    refine List.nodup_cons.mpr ⟨?_, columnRoles_keys_nodup cols _⟩
    intro hmem
    rcases List.mem_map.mp hmem with ⟨p, hp, hpe⟩
    have := columnRoles_key_lb cols (TableModel.UserRole + 1) p hp
    rw [hpe] at this
    exact (by decide : ¬ (TableModel.UserRole + 1 ≤ TableModel.CheckStateRole)) this
  · exact List.mem_cons_self _ _
  · intro i h
    exact List.mem_cons_of_mem _
      (columnRoles_mem cols (TableModel.UserRole + 1) i h)

/-- Witness for C2 (amended): column 1 of a two-column schema is published
under key `Qt::UserRole + 1 + 1`. -/
theorem roleNames_keys_spec_witness :
    (TableModel.UserRole + 1 + 1, "state")
      ∈ TableModel.roleNames ["title", "state"] :=
  (roleNames_keys_spec ["title", "state"]).2.2.2 1 (by decide)

/-- Searching the column-role list for the (unique) field called `v` finds
the entry of its column. -/
theorem find_columnRoles (v : String) :
    ∀ (cols : List String) (base c : ℕ), cols.Nodup → c < cols.length →
      cols.getD c "" = v →
      (TableModel.columnRoles base cols).find? (fun p => p.2 == v)
        = some (base + c, v) := by
  intro cols
  induction cols with
  | nil => intro base c _ hc _; simp at hc
  | cons f fs ih =>
    intro base c hnd hc hv
    cases c with
    | zero =>
      have hf : f = v := hv
      rw [TableModel.columnRoles,
        List.find?_cons_of_pos _ (by simp [hf])]
      simp [hf]
    | succ n =>
      have hn : n < fs.length := by simpa using hc
      have hvn : fs.getD n "" = v := hv
      have hfv : ¬ (f = v) := by
        intro hfv
        have hvmem : v ∈ fs := by
          rw [← hvn, List.getD_eq_getElem fs "" hn]
          exact List.getElem_mem hn
        exact (List.nodup_cons.mp hnd).1 (hfv ▸ hvmem)
      rw [TableModel.columnRoles,
        List.find?_cons_of_neg _ (by simp [hfv])]
      rw [show base + (n + 1) = (base + 1) + n by omega]
      exact ih (base + 1) n (List.nodup_cons.mp hnd).2 hn hvn

/-- Reverse-mapping a freshly rebuilt role hash at the name of column `c`
yields the role `Qt::UserRole + 1 + c`. -/
theorem rolesKey_roleNames (cols : List String) (c : ℕ) (hnd : cols.Nodup)
    (hc : c < cols.length) (hv : cols.getD c "" = "deleted_at") :
    TableModel.rolesKey (TableModel.roleNames cols) "deleted_at"
      = TableModel.UserRole + 1 + c := by
  unfold TableModel.rolesKey TableModel.roleNames
  rw [List.find?_cons_of_neg _ (by decide),
    find_columnRoles "deleted_at" cols (TableModel.UserRole + 1) c hnd hc hv]

/-- Reduction of `recoverRow` when the cached role hash is fresh and the
schema has a column called `deleted_at`: the null write lands on that column
through the edit path, succeeding exactly on an in-range row accepted by the
database. -/
theorem recoverRow_resolved (s : TableModel.ModelState) (row c : ℕ)
    (hroles : s.roles = TableModel.roleNames s.cols) (hnd : s.cols.Nodup)
    (hc : c < s.cols.length) (hv : s.cols.getD c "" = "deleted_at") :
    TableModel.recoverRow s row =
      if row < s.rows.length then
        (if s.storeEditOk then
          (true, { s with
              rows := TableModel.writeCell s.rows row c Variant.null })
        else (false, s))
      else (false, s) := by
  unfold TableModel.recoverRow
  rw [hroles, rolesKey_roleNames s.cols c hnd hc hv]
  by_cases hrow : row < s.rows.length
  · rw [if_pos hrow]
    unfold TableModel.setData
    rw [if_neg (not_not_intro ⟨hrow, Nat.lt_of_le_of_lt (Nat.zero_le c) hc⟩)]
    rw [if_neg (by unfold TableModel.UserRole; omega :
      ¬ (TableModel.UserRole + 1 + c < TableModel.UserRole))]
    have hcol : ((TableModel.UserRole + 1 + c : ℕ) : ℤ)
        - (TableModel.UserRole : ℤ) - 1 = (c : ℤ) := by
      unfold TableModel.UserRole
      push_cast
      ring
    rw [hcol]
    unfold TableModel.baseSetData
    rw [if_neg (not_not_intro rfl)]
    rw [if_pos ⟨Int.natCast_nonneg c, by exact_mod_cast hc, hrow⟩]
    simp only [Int.toNat_natCast]
    rw [hroles]
  · rw [if_neg hrow]
    unfold TableModel.setData
    rw [if_pos (fun hand => hrow hand.1)]

/-- C4: `recoverRow` writes a null value into the `deleted_at` column
through `setData`, using the role obtained by reverse-mapping the field name
`deleted_at` in the cached role hash; it answers `false` whenever the role
lookup fails (no such entry, yielding the default key 0, which the write
path rejects), whenever the database rejects the write, and whenever the row
is out of range. -/
theorem recoverRow_spec (s : TableModel.ModelState) (row : ℕ) :
    (s.roles.find? (fun p => p.2 == "deleted_at") = none →
        TableModel.recoverRow s row = (false, s)) ∧
    (∀ c, s.roles = TableModel.roleNames s.cols → s.cols.Nodup →
        c < s.cols.length → s.cols.getD c "" = "deleted_at" →
        (row < s.rows.length → s.storeEditOk = true →
            TableModel.recoverRow s row =
              (true, { s with
                  rows := TableModel.writeCell s.rows row c Variant.null })) ∧
        (s.storeEditOk = false → (TableModel.recoverRow s row).1 = false) ∧
        (s.rows.length ≤ row → (TableModel.recoverRow s row).1 = false)) := by
  constructor
  · intro h
    have hk : TableModel.rolesKey s.roles "deleted_at" = 0 := by
      unfold TableModel.rolesKey
      rw [h]
    unfold TableModel.recoverRow
    rw [hk]
    by_cases hval : row < s.rows.length ∧ 0 < s.cols.length
    · unfold TableModel.setData
      rw [if_neg (not_not_intro hval)]
      rw [if_pos (by decide : (0 : ℕ) < TableModel.UserRole)]
      rw [if_neg (by decide : ¬ ((0 : ℕ) = TableModel.CheckStateRole))]
      unfold TableModel.baseSetData
      rw [if_pos (by decide : (0 : ℕ) ≠ TableModel.EditRole)]
    · unfold TableModel.setData
      rw [if_pos hval]
  · intro c hroles hnd hc hv
    have hres := recoverRow_resolved s row c hroles hnd hc hv
    refine ⟨?_, ?_, ?_⟩
    · intro hrow hok
      rw [hres, if_pos hrow, hok]
      rfl
    · intro hok
      rw [hres]
      by_cases hrow : row < s.rows.length
      · rw [if_pos hrow, hok]
        rfl
      · rw [if_neg hrow]
    · intro hge
      rw [hres, if_neg (by omega)]

/-- Witness for C4: recovering row 3 of the sample writes a null into its
`deleted_at` column (column 2). -/
theorem recoverRow_spec_witness :
    TableModel.recoverRow sampleState 3 =
      (true, { sampleState with
          rows := TableModel.writeCell sampleState.rows 3 2 Variant.null }) :=
  ((recoverRow_spec sampleState 3).2 2 rfl (by decide) (by decide) rfl).1
    (by decide) rfl

/-- Positions entirely below `n` never match, so the omission keeps the whole
list. -/
theorem omitIdxs_eq_self {α : Type} :
    ∀ (rows : List α) (n : ℕ) (s : Finset ℕ),
      (∀ i ∈ s, i < n) → omitIdxs n rows s = rows := by
  intro rows
  induction rows with
  | nil => intro n s _; rfl
  | cons a as ih =>
    intro n s h
    simp only [omitIdxs]
    rw [if_neg (fun hmem => absurd (h n hmem) (lt_irrefl n))]
    rw [ih (n + 1) s (fun i hi => Nat.lt_succ_of_lt (h i hi))]

/-- Removing the entry at offset `j` and then omitting positions below it is
the same as omitting the positions together with `n + j` on the original
list: an erasure above every remaining position does not shift any of
them. -/
theorem omitIdxs_eraseIdx {α : Type} :
    ∀ (rows : List α) (n j : ℕ) (s : Finset ℕ),
      j < rows.length → (∀ i ∈ s, i < n + j) →
      omitIdxs n (rows.eraseIdx j) s = omitIdxs n rows (insert (n + j) s) := by
  intro rows
  induction rows with
  | nil => intro n j s hj _; simp at hj
  | cons a as ih =>
    intro n j s hj hs
    cases j with
    | zero =>
      rw [List.eraseIdx_cons_zero]
      rw [omitIdxs_eq_self as n s (by simpa using hs)]
      simp only [omitIdxs]
      rw [if_pos (show n ∈ insert (n + 0) s by
        rw [Nat.add_zero]
        exact Finset.mem_insert_self n s)]
      rw [omitIdxs_eq_self as (n + 1) (insert (n + 0) s) ?_]
      intro i hi
      rcases Finset.mem_insert.mp hi with heq | hrest
      · omega
      · have := hs i hrest
        omega
    | succ m =>
      rw [List.eraseIdx_cons_succ]
      simp only [omitIdxs]
      have hne : ¬ (n = n + (m + 1)) := by omega
      have hmem : (n ∈ insert (n + (m + 1)) s) ↔ (n ∈ s) := by
        rw [Finset.mem_insert]
        exact ⟨fun h => h.elim (fun he => absurd he hne) id, Or.inr⟩
      have hrec : omitIdxs (n + 1) (as.eraseIdx m) s
          = omitIdxs (n + 1) as (insert (n + (m + 1)) s) := by
        have := ih (n + 1) m s (by simpa using hj)
          (fun i hi => by have := hs i hi; omega)
        rw [this, show (n + 1) + m = n + (m + 1) by omega]
      by_cases hn : n ∈ s
      · rw [if_pos hn, if_pos (hmem.mpr hn), hrec]
      · rw [if_neg hn, if_neg (fun hmm => hn (hmem.mp hmm)), hrec]

/-- Reduction of the removal loop on an in-range head. -/
theorem removeSelectedGo_cons_pos (i : ℕ) (rest : List ℕ)
    (rows : List (List Variant)) (sel : Finset ℕ) (t : ℕ)
    (h : i < rows.length) :
    TableModel.removeSelectedGo (i :: rest) rows sel t =
      TableModel.removeSelectedGo rest (rows.eraseIdx i) (sel.erase i)
        (t + 1) := by
  conv_lhs => simp only [TableModel.removeSelectedGo, TableModel.removeRowAt]
  rw [if_pos h]

/-- Reduction of the removal loop on an out-of-range head. -/
theorem removeSelectedGo_cons_neg (i : ℕ) (rest : List ℕ)
    (rows : List (List Variant)) (sel : Finset ℕ) (t : ℕ)
    (h : ¬ i < rows.length) :
    TableModel.removeSelectedGo (i :: rest) rows sel t =
      TableModel.removeSelectedGo rest rows sel t := by
  conv_lhs => simp only [TableModel.removeSelectedGo, TableModel.removeRowAt]
  rw [if_neg h]

/-- Walking a strictly descending list of in-range indices removes exactly
those positions — each erasure sits above every index still to process, so
no pending index is shifted — counts one removal per index, and deselects
every processed index. -/
theorem removeSelectedGo_sorted :
    ∀ (ds : List ℕ) (rows : List (List Variant)) (s : Finset ℕ) (t : ℕ),
      ds.Pairwise (· > ·) → ds.toFinset = s →
      (∀ i ∈ ds, i < rows.length) →
      TableModel.removeSelectedGo ds rows s t
        = (t + ds.length, omitIdxs 0 rows s, (∅ : Finset ℕ)) := by
  intro ds
  induction ds with
  | nil =>
    intro rows s t _ hts _
    rw [← hts]
    simp only [List.toFinset_nil, TableModel.removeSelectedGo,
      List.length_nil, Nat.add_zero]
    rw [omitIdxs_eq_self rows 0 ∅ (by simp)]
  | cons j rest ih =>
    intro rows s t hp hts hb
    have hj : j < rows.length := hb j (List.mem_cons_self j rest)
    have hjrest : ∀ k ∈ rest, k < j :=
      fun k hk => (List.pairwise_cons.mp hp).1 k hk
    have hjnotmem : j ∉ rest.toFinset := by
      intro hmem
      exact lt_irrefl j (hjrest j (List.mem_toFinset.mp hmem))
    have hserase : s.erase j = rest.toFinset := by
      rw [← hts, List.toFinset_cons]
      exact Finset.erase_insert hjnotmem
    have hlen : (rows.eraseIdx j).length = rows.length - 1 := by
      rw [List.length_eraseIdx]
      simp [hj]
    rw [removeSelectedGo_cons_pos j rest rows s t hj, hserase]
    rw [ih (rows.eraseIdx j) rest.toFinset (t + 1)
      (List.pairwise_cons.mp hp).2 rfl
      (fun k hk => by have := hjrest k hk; omega)]
    have hrw : omitIdxs 0 (rows.eraseIdx j) rest.toFinset
        = omitIdxs 0 rows (insert j rest.toFinset) := by
      have := omitIdxs_eraseIdx rows 0 j rest.toFinset hj
        (fun i hi => by
          have := hjrest i (List.mem_toFinset.mp hi)
          omega)
      simpa using this
    rw [hrw, show insert j rest.toFinset = s from by
      rw [← hts, List.toFinset_cons]]
    rw [show t + 1 + rest.length = t + (j :: rest).length from by
      simp [List.length_cons]; omega]

/-- An index at or above the loaded row count can never be removed — the row
count only shrinks — so it survives in the selection set. -/
theorem removeSelectedGo_out_of_range :
    ∀ (ds : List ℕ) (rows : List (List Variant)) (s : Finset ℕ) (t i : ℕ),
      i ∈ s → rows.length ≤ i →
      i ∈ (TableModel.removeSelectedGo ds rows s t).2.2 := by
  intro ds
  induction ds with
  | nil =>
    intro rows s t i hi _
    simpa [TableModel.removeSelectedGo] using hi
  | cons j rest ih =>
    intro rows s t i hi hlen
    by_cases hj : j < rows.length
    · rw [removeSelectedGo_cons_pos j rest rows s t hj]
      apply ih
      · exact Finset.mem_erase.mpr ⟨by omega, hi⟩
      · have : (rows.eraseIdx j).length = rows.length - 1 := by
          rw [List.length_eraseIdx]
          simp [hj]
        omega
    · rw [removeSelectedGo_cons_neg j rest rows s t hj]
      exact ih rows s t i hi hlen

/-- C1: `removeSelected` consumes the ascending-sorted selection from the
tail, i.e. in descending row order, so an earlier removal never invalidates
the index of a not-yet-processed row: on an everywhere-in-range selection it
removes exactly the selected positions (returning their count and keeping
the non-selected rows in order) and deselects every removed row, while an
index whose removal must fail (at or above the row count) stays selected. -/
theorem removeSelected_descending_spec (s : TableModel.ModelState)
    (sel : Finset ℕ) (hsel : s.selectionModel = some sel) :
    ((∀ i ∈ sel, i < s.rows.length) →
        TableModel.removeSelected s =
          (sel.card, { s with
              rows := omitIdxs 0 s.rows sel,
              selectionModel := some (∅ : Finset ℕ) })) ∧
    (∀ i ∈ sel, s.rows.length ≤ i →
        i ∈ ((TableModel.removeSelected s).2.selectionModel.getD ∅)) := by
  have hds_pairwise : ((sel.sort (· ≤ ·)).reverse).Pairwise (· > ·) := by
    rw [List.pairwise_reverse]
    exact Finset.sort_sorted_lt sel
  have hds_toFinset : ((sel.sort (· ≤ ·)).reverse).toFinset = sel := by
    rw [List.toFinset_reverse, Finset.sort_toFinset]
  have hds_length : ((sel.sort (· ≤ ·)).reverse).length = sel.card := by
    rw [List.length_reverse, Finset.length_sort]
  constructor
  · intro hb
    have hbds : ∀ i ∈ (sel.sort (· ≤ ·)).reverse, i < s.rows.length := by
      intro i hi
      apply hb
      rw [List.mem_reverse, Finset.mem_sort] at hi
      exact hi
    simp only [TableModel.removeSelected, hsel]
    rw [removeSelectedGo_sorted _ s.rows sel 0 hds_pairwise hds_toFinset hbds]
    rw [hds_length]
    simp
  · intro i hi hlen
    simp only [TableModel.removeSelected, hsel, Option.getD_some]
    exact removeSelectedGo_out_of_range _ s.rows sel 0 i hi hlen

/-- Witness for C1: on the ten-row sample with selection `{2, 5, 7}`, three
rows are removed, exactly the non-selected positions remain (in order), and
the selection empties. -/
theorem removeSelected_descending_spec_witness :
    TableModel.removeSelected sampleState =
      (Finset.card {2, 5, 7},
        { sampleState with
            rows := omitIdxs 0 sampleState.rows {2, 5, 7},
            selectionModel := some (∅ : Finset ℕ) }) :=
  (removeSelected_descending_spec sampleState {2, 5, 7} rfl).1 (by decide)
